import Mathlib

/-!
Shallow embedding of src/blackjack.py (class BlackjackGUI).

The Python file is a PySide6 GUI; its game logic lives in the methods
calculate_score, draw_card, deal_initial_cards, player_hit_logic,
dealer_react_after_player_hit, dealer_turn_logic, dealer_auto_play_end_mode
and end_game.  Presentation code (widgets, animations, sounds, timers) is
stripped except for the game-visible state it carries: the hidden/shown flag
of each dealer card widget and the visibility of the dealer STAND! label.

Randomness is embedded in two ways, both standard skolemizations:
  * for the state machine, the sequence of cards that successive draw_card
    calls will return is a list field `deck` of the state (draw_card always
    returns a fresh card while fewer than 52 are used, so only the returned
    sequence matters for the machine);  an empty `deck` means the next
    draw_card call would not return, modelled as the `hang` result;
  * for draw_card itself (claims about the used-set contract), the stream of
    candidates produced by random.randint is an explicit function
    `Nat → Card` and the unbounded `while True` loop is given explicit fuel:
    `none` means the loop has not returned within the given fuel.

The Python code raises no exceptions in any of these methods; the result
type `StepResult` still carries an `err` constructor for the error taxonomy
the specification names (IllegalActionError, ExhaustedDeckError) so that
statements about those errors can be expressed; the embedding never
produces it, exactly as the source never raises.
-/

/-- Card as in the source: a `(rank, suit)` pair with rank 1..13, suit 1..4
(`random.randint(1, 13), random.randint(1, 4)`). -/
abbrev Card := Nat × Nat

/-- Ace promotion loop of `calculate_score`:
`while ace_count > 0 and total + 10 <= 21: total += 10; ace_count -= 1`. -/
def promote_aces (total : Nat) : Nat → Nat
  | 0 => total
  | aces + 1 => if total + 10 ≤ 21 then promote_aces (total + 10) aces else total

/-- `calculate_score` from the source: 0 for the empty hand, otherwise the sum
of `min(rank, 10)` over the hand followed by the ace promotion loop, where the
ace count is the number of rank-1 cards. -/
def calculate_score (cards : List Card) : Nat :=
  if cards = [] then 0
  else promote_aces (((cards.map Prod.fst).map (fun r => min r 10)).sum)
    ((cards.map Prod.fst).count 1)

/-- Modelled from the spec (reference algorithm of claim C1): the pip value of
a rank, "rank 1 (Ace) counts as 1 and ranks 11-13 count as 10". -/
def spec_pip (r : Nat) : Nat :=
  if r = 1 then 1 else if 11 ≤ r then 10 else r

/-- Modelled from the spec (reference algorithm of claim C1): "while at least
one Ace in the hand has not yet been promoted and the running total plus 10
does not exceed 21, promote one Ace by adding 10". -/
def spec_promote (total : Nat) : Nat → Nat
  | 0 => total
  | aces + 1 => if total + 10 ≤ 21 then spec_promote (total + 10) aces else total

/-- Modelled from the spec (reference algorithm of claim C1): sum of the pip
values, then the promotion loop over the number of Aces. -/
def spec_score (hand : List Card) : Nat :=
  spec_promote ((hand.map (fun c => spec_pip c.1)).sum)
    ((hand.map Prod.fst).count 1)

/-- Round outcome; one constructor per result message of `end_game`:
`drawBothBust` is "It's a draw! (both bust)", `loseBust` is "You lose! (bust)",
`winDealerBust` is "You win! (dealer bust)", `win` is "You win!", `lose` is
"You lose!", `tie` is "It's a tie!". -/
inductive Outcome
  | drawBothBust
  | loseBust
  | winDealerBust
  | win
  | lose
  | tie
deriving DecidableEq

/-- Outcome computation of `end_game`, the if/elif chain on the two scores. -/
def end_game_outcome (p d : Nat) : Outcome :=
  if p > 21 ∧ d > 21 then .drawBothBust
  else if p > 21 then .loseBust
  else if d > 21 then .winDealerBust
  else if p > d then .win
  else if d > p then .lose
  else .tie

/-- Modelled from the spec (outcome rule of claim C2), with each condition
written out in full as the claim states it. -/
def spec_outcome (p d : Nat) : Outcome :=
  if p > 21 ∧ d > 21 then .drawBothBust
  else if p > 21 ∧ d ≤ 21 then .loseBust
  else if d > 21 ∧ p ≤ 21 then .winDealerBust
  else if p > d then .win
  else if p < d then .lose
  else .tie

/-- Dealer play mode, the class constants MODE_AUTO_START = 0,
MODE_WITH_PLAYER = 1, MODE_AUTO_END = 2. -/
inductive Mode
  | autoStart
  | withPlayer
  | autoEnd
deriving DecidableEq

/-- Round state of the BlackjackGUI object.  `dealerCards` pairs each card of
`self.dealer_cards` with the `is_hidden` flag of its widget; `dealerPlaying`
is `self._dealer_playing`; `standLabelVisible` is the visibility of
`self.dealer_stand_label`; `resultMsg` is the text of `self.result_label`
(`none` while empty); `deck` is the sequence of cards the upcoming
`draw_card` calls will return. -/
structure GameState where
  playerCards : List Card
  dealerCards : List (Card × Bool)
  dealerHasStood : Bool
  dealerPlaying : Bool
  standLabelVisible : Bool
  resultMsg : Option Outcome
  mode : Mode
  threshold : Nat
  deck : List Card
deriving DecidableEq

/-- Error taxonomy of the specification.  The source never raises either. -/
inductive GameError
  | illegalActionError
  | exhaustedDeckError
deriving DecidableEq

/-- Result of one engine call: `ok` is a normal return with the new state,
`hang` means the call never returns (the `while True` loop of `draw_card`
finds no fresh card), `err` is a raised error - never produced by the
embedding because the source raises nothing. -/
inductive StepResult
  | ok (st : GameState)
  | hang
  | err (e : GameError)
deriving DecidableEq

/-- `end_game`: computes both scores and stores the result message. -/
def end_game (st : GameState) : GameState :=
  { st with resultMsg := some (end_game_outcome (calculate_score st.playerCards)
      (calculate_score (st.dealerCards.map Prod.fst))) }

/-- `w.reveal()` for every hidden dealer widget: all cards face up. -/
def reveal_dealer_cards (hand : List (Card × Bool)) : List (Card × Bool) :=
  hand.map (fun cb => (cb.1, false))

/-- `hide_dealer_stand_label`. -/
def hide_stand_label (st : GameState) : GameState :=
  { st with standLabelVisible := false }

/-- The `while self.calculate_score(self.dealer_cards) < self.dealer_stand_threshold`
draw loop shared by `dealer_auto_play_end_mode` (hidden = false, cards face up)
and `deal_extra_dealer_cards_auto_start` (hidden = true).  `none` when the
deck runs out while still below the threshold (the next `draw_card` would
then never return). -/
def dealer_auto_play (thr : Nat) (hidden : Bool) (deck : List Card)
    (hand : List (Card × Bool)) : Option (List (Card × Bool) × List Card) :=
  if calculate_score (hand.map Prod.fst) < thr then
    match deck with
    | [] => none
    | c :: rest => dealer_auto_play thr hidden rest (hand ++ [(c, hidden)])
  else some (hand, deck)

/-- `dealer_react_after_player_hit`: return at once if the dealer stood;
draw one face-down card if below the threshold; otherwise set the stood flag
and show the STAND! label. -/
def dealer_react_after_player_hit (st : GameState) : StepResult :=
  if st.dealerHasStood then .ok st
  else if calculate_score (st.dealerCards.map Prod.fst) < st.threshold then
    match st.deck with
    | [] => .hang
    | c :: rest =>
      .ok { st with dealerCards := st.dealerCards ++ [(c, true)], deck := rest }
  else .ok { st with dealerHasStood := true, standLabelVisible := true }

/-- `dealer_turn_logic`: guarded by `_dealer_playing`; sets the flag, reveals
every hidden dealer card, then dispatches on the mode exactly as `after_reveal`
does, with `dealer_auto_play_end_mode(show_stand=False)` inlined (it hides
the stand label, runs the draw loop face up, and calls `end_game`). -/
def dealer_turn_logic (st : GameState) : StepResult :=
  if st.dealerPlaying then .ok st
  else
    match st.mode with
    | .autoStart =>
      .ok (end_game (hide_stand_label
        { st with
          dealerPlaying := true,
          dealerCards := reveal_dealer_cards st.dealerCards }))
    | .withPlayer =>
      if st.dealerHasStood then
        .ok (end_game (hide_stand_label
          { st with
            dealerPlaying := true,
            dealerCards := reveal_dealer_cards st.dealerCards }))
      else
        match dealer_auto_play st.threshold false st.deck
            (reveal_dealer_cards st.dealerCards) with
        | none => .hang
        | some (hand, rest) =>
          .ok (end_game (hide_stand_label
            { st with
              dealerPlaying := true, dealerCards := hand, deck := rest }))
    | .autoEnd =>
      match dealer_auto_play st.threshold false st.deck
          (reveal_dealer_cards st.dealerCards) with
      | none => .hang
      | some (hand, rest) =>
        .ok (end_game (hide_stand_label
          { st with
            dealerPlaying := true, dealerCards := hand, deck := rest }))

/-- `player_hit_logic`: guarded by `_dealer_playing`; draws one player card;
at exactly 21 or above 21 goes straight to `dealer_turn_logic`; otherwise the
dealer reacts under WITH_PLAYER and controls are re-enabled under the other
modes. -/
def player_hit_logic (st : GameState) : StepResult :=
  if st.dealerPlaying then .ok st
  else
    match st.deck with
    | [] => .hang
    | c :: rest =>
      if calculate_score (st.playerCards ++ [c]) = 21 then
        dealer_turn_logic { st with playerCards := st.playerCards ++ [c], deck := rest }
      else if calculate_score (st.playerCards ++ [c]) > 21 then
        dealer_turn_logic { st with playerCards := st.playerCards ++ [c], deck := rest }
      else if st.mode = .withPlayer then
        dealer_react_after_player_hit
          { st with playerCards := st.playerCards ++ [c], deck := rest }
      else .ok { st with playerCards := st.playerCards ++ [c], deck := rest }

/-- `player_has_blackjack`: exactly two cards scoring 21. -/
def player_has_blackjack (cards : List Card) : Bool :=
  cards.length == 2 && calculate_score cards == 21

/-- State of the BlackjackGUI object right after `start_game` has reset all
round fields and the given cards have been dealt; mirrors the field resets
at the top of `start_game`. -/
def fresh_state (mode : Mode) (thr : Nat) (pc : List Card)
    (dc : List (Card × Bool)) (deck : List Card) : GameState :=
  { playerCards := pc, dealerCards := dc, dealerHasStood := false,
    dealerPlaying := false, standLabelVisible := false, resultMsg := none,
    mode := mode, threshold := thr, deck := deck }

/-- `deal_initial_cards` (with `start_game` state reset): dealer draws two
cards, first face up and second face down, then the player draws two face up;
under AUTO_START the dealer keeps drawing face down until the threshold
(`deal_extra_dealer_cards_auto_start`); a natural player 21 goes straight to
`dealer_turn_logic`, otherwise controls are enabled. -/
def deal_initial_cards (mode : Mode) (thr : Nat) (deck : List Card) : StepResult :=
  match deck with
  | d1 :: d2 :: p1 :: p2 :: rest =>
    if mode = .autoStart then
      match dealer_auto_play thr true rest [(d1, false), (d2, true)] with
      | none => .hang
      | some (hand, rest2) =>
        if player_has_blackjack [p1, p2] then
          dealer_turn_logic (fresh_state mode thr [p1, p2] hand rest2)
        else
          .ok (fresh_state mode thr [p1, p2] hand rest2)
    else
      if player_has_blackjack [p1, p2] then
        dealer_turn_logic
          (fresh_state mode thr [p1, p2] [(d1, false), (d2, true)] rest)
      else
        .ok (fresh_state mode thr [p1, p2] [(d1, false), (d2, true)] rest)
  | _ => .hang

/-- Player inputs available during a round: the Hit and Stand buttons. -/
inductive Act
  | hit
  | stand
deriving DecidableEq

/-- Dispatch one button press to its handler. -/
def apply_act (st : GameState) : Act → StepResult
  | .hit => player_hit_logic st
  | .stand => dealer_turn_logic st

/-- Run a sequence of button presses; stops at the first non-returning call. -/
def run_actions : GameState → List Act → StepResult
  | st, [] => .ok st
  | st, a :: rest =>
    match apply_act st a with
    | .ok st2 => run_actions st2 rest
    | r => r

/-- The 52-card universe: ranks 1..13 times suits 1..4. -/
def deck52 : Finset Card := Finset.Icc 1 13 ×ˢ Finset.Icc 1 4

/-- Fuelled version of the `while True` rejection loop inside `draw_card`:
index of the first candidate from `start` on that is not in `used`, or `none`
if no fresh candidate is found within `fuel` iterations (the real loop would
still be running). -/
def findUnused (stream : Nat → Card) (used : Finset Card) : Nat → Nat → Option Nat
  | _, 0 => none
  | start, fuel + 1 =>
    if stream start ∈ used then findUnused stream used (start + 1) fuel
    else some start

/-- `draw_card` over an explicit candidate stream: the first fresh candidate
is returned and added to `self.used_cards`; the third component is where the
next call continues in the stream.  `none` means the loop has not returned
within `fuel` iterations. -/
def draw_card (stream : Nat → Card) (used : Finset Card) (start fuel : Nat) :
    Option (Card × Finset Card × Nat) :=
  match findUnused stream used start fuel with
  | none => none
  | some i => some (stream i, insert (stream i) used, i + 1)

/-- A run of `n` consecutive `draw_card` calls, each with the given fuel,
threading the used set and the stream position. -/
def drawN (stream : Nat → Card) (fuel : Nat) :
    Nat → Finset Card → Nat → Option (List Card × Finset Card × Nat)
  | 0, used, start => some ([], used, start)
  | n + 1, used, start =>
    match draw_card stream used start fuel with
    | none => none
    | some (c, u, s) =>
      match drawN stream fuel n u s with
      | none => none
      | some (cs, u2, s2) => some (c :: cs, u2, s2)

/-- Proposition that the `draw_card` loop runs forever: from every stream
position and for every amount of fuel it has not returned. -/
def draw_card_loops (stream : Nat → Card) (used : Finset Card) : Prop :=
  ∀ start fuel, draw_card stream used start fuel = none

/-- A concrete candidate stream that cycles through all 52 cards. -/
def conStream (i : Nat) : Card := (i % 13 + 1, (i / 13) % 4 + 1)

/-- Hands that can arise in a round: an opening two-card deal, extended one
card at a time only while the current score is at most 20 (the player may
only hit below 21, and every dealer draw happens below a threshold that is
at most 21). -/
inductive ReachableHand : List Card → Prop
  | deal (c1 c2 : Card) : ReachableHand [c1, c2]
  | hit (h : List Card) (c : Card) : ReachableHand h →
      calculate_score h ≤ 20 → ReachableHand (h ++ [c])

/-- WITH_PLAYER round state used as a concrete instance in several theorems:
dealer holds Ace-6 (one face down), stand threshold 17, player holds 14. -/
def ace_six_state : GameState :=
  fresh_state .withPlayer 17 [(5, 1), (9, 1)] [((1, 2), false), ((6, 3), true)]
    [(2, 1), (2, 2), (3, 1)]

/-- Round state after `end_game` has run: `_dealer_playing` is still set and
the result label is filled in; in this phase every action is illegal. -/
def resolved_state : GameState :=
  { playerCards := [(10, 1), (9, 2)],
    dealerCards := [((10, 3), false), ((8, 1), false)], dealerHasStood := false,
    dealerPlaying := true, standLabelVisible := false, resultMsg := some .win,
    mode := .withPlayer, threshold := 16, deck := [(2, 1)] }

/-- AUTO_END round state about to enter the dealer turn: dealer holds 16
against threshold 17 and the next card in the deck brings it to 21. -/
def auto_end_state : GameState :=
  fresh_state .autoEnd 17 [(10, 1), (9, 1)] [((10, 2), false), ((6, 2), true)]
    [(5, 3)]

/-- The `ace_six_state` after the dealer's reaction has set the stood flag. -/
def ace_six_stood : GameState :=
  { ace_six_state with dealerHasStood := true, standLabelVisible := true }

/-- The `ace_six_stood` state after the player has hit twice (scores 16 and
18, both below 21, so the dealer reacted twice and drew nothing). -/
def ace_six_after_two_hits : GameState :=
  { ace_six_stood with
    playerCards := [(5, 1), (9, 1), (2, 1), (2, 2)], deck := [(3, 1)] }

/-- AUTO_END round state immediately after an opening deal of ten-six to the
dealer and five-five to the player. -/
def auto_end_dealt : GameState :=
  fresh_state .autoEnd 17 [(5, 1), (5, 2)] [((10, 1), false), ((6, 1), true)]
    [(2, 1)]

/-- The `auto_end_dealt` state after one player hit (score 12). -/
def auto_end_after_hit : GameState :=
  { auto_end_dealt with playerCards := [(5, 1), (5, 2), (2, 1)], deck := [] }

lemma calculate_score_eq_promote (cards : List Card) :
    calculate_score cards =
      promote_aces (((cards.map Prod.fst).map (fun r => min r 10)).sum)
        ((cards.map Prod.fst).count 1) := by
  by_cases h : cards = []
  · subst h; simp [calculate_score, promote_aces]
  · simp [calculate_score, h]

lemma promote_aces_ge : ∀ (aces total : Nat), total ≤ promote_aces total aces
  | 0, _ => le_refl _
  | aces + 1, total => by
    simp only [promote_aces]
    split
    · exact le_trans (Nat.le_add_right _ _) (promote_aces_ge aces (total + 10))
    · exact le_refl _

lemma promote_aces_le : ∀ (aces total : Nat), promote_aces total aces ≤ max total 21
  | 0, _ => le_max_left _ _
  | aces + 1, total => by
    simp only [promote_aces]
    split
    · have h2 := promote_aces_le aces (total + 10)
      omega
    · exact le_max_left _ _

lemma base_le_calculate_score (cards : List Card) :
    ((cards.map Prod.fst).map (fun r => min r 10)).sum ≤ calculate_score cards := by
  rw [calculate_score_eq_promote]
  exact promote_aces_ge _ _

lemma calculate_score_le (cards : List Card) :
    calculate_score cards ≤
      max (((cards.map Prod.fst).map (fun r => min r 10)).sum) 21 := by
  rw [calculate_score_eq_promote]
  exact promote_aces_le _ _

lemma min_eq_spec_pip (r : Nat) : min r 10 = spec_pip r := by
  simp only [spec_pip]
  split_ifs <;> omega

lemma map_pip_eq_map_spec_pip (l : List Nat) :
    l.map (fun r => min r 10) = l.map spec_pip := by
  induction l with
  | nil => rfl
  | cons a l ih => simp [List.map_cons, ih, min_eq_spec_pip]

lemma promote_aces_eq_spec : ∀ (aces total : Nat),
    promote_aces total aces = spec_promote total aces
  | 0, _ => rfl
  | aces + 1, total => by
    by_cases h : total + 10 ≤ 21
    · simp [promote_aces, spec_promote, h, promote_aces_eq_spec aces (total + 10)]
    · simp [promote_aces, spec_promote, h]

/-- C1: for every hand, `calculate_score` equals the reference algorithm of
the specification (pip sum with Ace = 1 and faces = 10, then the Ace
promotion loop); in particular score([Ace, King]) = 21 and
score([Ace, Ace]) = 12.  Both sides are pure Lean functions, so determinism
and absence of side effects are inherent. -/
theorem claim1_score_matches_reference :
    (∀ hand : List Card, calculate_score hand = spec_score hand) ∧
    calculate_score [(1, 4), (13, 1)] = 21 ∧
    calculate_score [(1, 1), (1, 2)] = 12 := by
  refine ⟨fun hand => ?_, by decide, by decide⟩
  rw [calculate_score_eq_promote, map_pip_eq_map_spec_pip, promote_aces_eq_spec]
  unfold spec_score
  rw [List.map_map]
  rfl

/-- C2: the outcome emitted by `end_game` agrees with the outcome rule of the
specification in every case, and `end_game` stores exactly that outcome,
computed from the two final scores; the six sample score vectors of the
specification are checked explicitly. -/
theorem claim2_outcome_rule :
    (∀ p d : Nat, end_game_outcome p d = spec_outcome p d) ∧
    (∀ st : GameState, (end_game st).resultMsg =
      some (end_game_outcome (calculate_score st.playerCards)
        (calculate_score (st.dealerCards.map Prod.fst)))) ∧
    end_game_outcome 22 19 = .loseBust ∧
    end_game_outcome 19 22 = .winDealerBust ∧
    end_game_outcome 22 23 = .drawBothBust ∧
    end_game_outcome 20 18 = .win ∧
    end_game_outcome 17 20 = .lose ∧
    end_game_outcome 18 18 = .tie := by
  refine ⟨fun p d => ?_, fun st => rfl, by decide, by decide, by decide,
    by decide, by decide, by decide⟩
  unfold end_game_outcome spec_outcome
  split_ifs <;> first | rfl | omega

/-- C9 counterexample: a hand of four kings scores 40, outside the claimed
range 0..30; `calculate_score` is not bounded by 30 on arbitrary hands. -/
theorem claim9_counterexample :
    calculate_score [(13, 1), (13, 2), (13, 3), (13, 4)] = 40 ∧
    ¬ calculate_score [(13, 1), (13, 2), (13, 3), (13, 4)] ≤ 30 := by
  decide

/-- C9 (amended): on every hand reachable in a round - an opening two-card
deal extended only while the running score is at most 20, which covers every
player hit (allowed only below 21) and every dealer draw (taken only below a
threshold of at most 21) - the score lies in 0..30 (the lower bound is
inherent in the return type). -/
theorem claim9_score_range (hand : List Card) (h : ReachableHand hand) :
    calculate_score hand ≤ 30 := by
  induction h with
  | deal c1 c2 =>
    have hle := calculate_score_le [c1, c2]
    have h1 : min c1.1 10 ≤ 10 := Nat.min_le_right _ _
    have h2 : min c2.1 10 ≤ 10 := Nat.min_le_right _ _
    simp [List.map_cons, List.sum_cons] at hle
    omega
  | hit h c _ hle ih =>
    have hb : ((h.map Prod.fst).map (fun r => min r 10)).sum ≤ 20 :=
      le_trans (base_le_calculate_score h) hle
    have hle2 := calculate_score_le (h ++ [c])
    have hc : min c.1 10 ≤ 10 := Nat.min_le_right _ _
    simp [List.map_append, List.sum_append, List.map_map] at hle2 hb
    omega

/-- C9 witness: King-King dealt, then a ten drawn at score 20, is a
reachable hand and its score 30 is within the bound. -/
theorem claim9_witness :
    ReachableHand [(13, 1), (13, 2), (10, 3)] ∧
    calculate_score [(13, 1), (13, 2), (10, 3)] ≤ 30 := by
  have h1 : ReachableHand [(13, 1), (13, 2)] := ReachableHand.deal _ _
  have h2 : ReachableHand ([(13, 1), (13, 2)] ++ [(10, 3)]) :=
    ReachableHand.hit _ _ h1 (by decide)
  exact ⟨h2, claim9_score_range _ h2⟩

/-- C10: the score never depends on suits - two hands whose rank sequences
agree position by position score the same. -/
theorem claim10_suit_independence (h1 h2 : List Card)
    (he : h1.map Prod.fst = h2.map Prod.fst) :
    calculate_score h1 = calculate_score h2 := by
  rw [calculate_score_eq_promote, calculate_score_eq_promote, he]

/-- C10 witness: Ace-King in clubs/diamonds scores the same as Ace-King in
hearts/spades. -/
theorem claim10_witness :
    ([((1 : Nat), (1 : Nat)), (13, 2)].map Prod.fst =
      [((1 : Nat), (3 : Nat)), (13, 4)].map Prod.fst) ∧
    calculate_score [(1, 1), (13, 2)] = calculate_score [(1, 3), (13, 4)] :=
  ⟨by decide, claim10_suit_independence _ _ (by decide)⟩

@[simp] lemma end_game_mode (st : GameState) : (end_game st).mode = st.mode := rfl

@[simp] lemma end_game_threshold (st : GameState) :
    (end_game st).threshold = st.threshold := rfl

@[simp] lemma end_game_playerCards (st : GameState) :
    (end_game st).playerCards = st.playerCards := rfl

@[simp] lemma end_game_dealerCards (st : GameState) :
    (end_game st).dealerCards = st.dealerCards := rfl

@[simp] lemma end_game_dealerHasStood (st : GameState) :
    (end_game st).dealerHasStood = st.dealerHasStood := rfl

@[simp] lemma end_game_dealerPlaying (st : GameState) :
    (end_game st).dealerPlaying = st.dealerPlaying := rfl

@[simp] lemma end_game_deck (st : GameState) : (end_game st).deck = st.deck := rfl

@[simp] lemma end_game_resultMsg_isSome (st : GameState) :
    (end_game st).resultMsg.isSome = true := rfl

@[simp] lemma hide_stand_label_mode (st : GameState) :
    (hide_stand_label st).mode = st.mode := rfl

@[simp] lemma hide_stand_label_threshold (st : GameState) :
    (hide_stand_label st).threshold = st.threshold := rfl

@[simp] lemma hide_stand_label_playerCards (st : GameState) :
    (hide_stand_label st).playerCards = st.playerCards := rfl

@[simp] lemma hide_stand_label_dealerCards (st : GameState) :
    (hide_stand_label st).dealerCards = st.dealerCards := rfl

@[simp] lemma hide_stand_label_dealerHasStood (st : GameState) :
    (hide_stand_label st).dealerHasStood = st.dealerHasStood := rfl

@[simp] lemma hide_stand_label_dealerPlaying (st : GameState) :
    (hide_stand_label st).dealerPlaying = st.dealerPlaying := rfl

@[simp] lemma hide_stand_label_deck (st : GameState) :
    (hide_stand_label st).deck = st.deck := rfl

@[simp] lemma hide_stand_label_resultMsg (st : GameState) :
    (hide_stand_label st).resultMsg = st.resultMsg := rfl

@[simp] lemma reveal_map_fst (h : List (Card × Bool)) :
    (reveal_dealer_cards h).map Prod.fst = h.map Prod.fst := by
  simp [reveal_dealer_cards, List.map_map, Function.comp]

lemma dealer_auto_play_sound (thr : Nat) (hidden : Bool) :
    ∀ (deck : List Card) (hand final : List (Card × Bool)) (rest : List Card),
      dealer_auto_play thr hidden deck hand = some (final, rest) →
      ∃ k, k ≤ deck.length ∧
        final.map Prod.fst = hand.map Prod.fst ++ deck.take k ∧
        rest = deck.drop k ∧
        thr ≤ calculate_score (final.map Prod.fst) ∧
        ∀ j, j < k →
          calculate_score (hand.map Prod.fst ++ deck.take j) < thr := by
  intro deck
  induction deck with
  | nil =>
    intro hand final rest h
    unfold dealer_auto_play at h
    split at h
    · exact Option.noConfusion h
    · simp only [Option.some.injEq, Prod.mk.injEq] at h
      obtain ⟨rfl, rfl⟩ := h
      refine ⟨0, le_refl _, by simp, rfl, ?_, by omega⟩
      next hge => exact Nat.le_of_not_lt hge
  | cons c r ih =>
    intro hand final rest h
    unfold dealer_auto_play at h
    split at h
    next hlt =>
      obtain ⟨k, hk, hfin, hrest, hthr, hmin⟩ := ih (hand ++ [(c, hidden)]) final rest h
      refine ⟨k + 1, by simpa using Nat.succ_le_succ hk, ?_, ?_, hthr, ?_⟩
      · rw [hfin]
        simp [List.map_append, List.append_assoc]
      · simpa using hrest
      · intro j hj
        match j with
        | 0 => simpa using hlt
        | j2 + 1 =>
          have h2 := hmin j2 (by omega)
          simp only [List.map_append] at h2
          simpa [List.append_assoc] using h2
    next hge =>
      simp only [Option.some.injEq, Prod.mk.injEq] at h
      obtain ⟨rfl, rfl⟩ := h
      exact ⟨0, by omega, by simp, rfl, Nat.le_of_not_lt hge, by omega⟩

lemma dealer_auto_play_complete (thr : Nat) (hidden : Bool) :
    ∀ (deck : List Card) (hand : List (Card × Bool)),
      thr ≤ calculate_score (hand.map Prod.fst ++ deck) →
      ∃ out, dealer_auto_play thr hidden deck hand = some out := by
  intro deck
  induction deck with
  | nil =>
    intro hand h
    simp only [List.append_nil] at h
    unfold dealer_auto_play
    rw [if_neg (Nat.not_lt.mpr h)]
    exact ⟨_, rfl⟩
  | cons c r ih =>
    intro hand h
    unfold dealer_auto_play
    by_cases hlt : calculate_score (hand.map Prod.fst) < thr
    · rw [if_pos hlt]
      apply ih
      simpa [List.map_append, List.append_assoc] using h
    · rw [if_neg hlt]
      exact ⟨_, rfl⟩

lemma dealer_turn_ok (st st2 : GameState) (h : dealer_turn_logic st = .ok st2) :
    st2.dealerPlaying = true ∧ st2.mode = st.mode ∧
    st2.threshold = st.threshold ∧ st2.dealerHasStood = st.dealerHasStood ∧
    st2.playerCards = st.playerCards := by
  unfold dealer_turn_logic at h
  split at h
  next hg =>
    injection h with h2
    subst h2
    exact ⟨hg, rfl, rfl, rfl, rfl⟩
  next hg =>
    split at h
    next =>
      injection h with h2
      subst h2
      simp
    next =>
      split at h
      next hs =>
        injection h with h2
        subst h2
        simp [hs]
      next hs =>
        split at h
        · exact StepResult.noConfusion h
        next hand rest heq =>
          injection h with h2
          subst h2
          simp [Bool.not_eq_true] at hs
          simp [hs]
    next =>
      split at h
      · exact StepResult.noConfusion h
      next hand rest heq =>
        injection h with h2
        subst h2
        simp

lemma dealer_turn_stood_cards (st st2 : GameState) (hm : st.mode = .withPlayer)
    (hs : st.dealerHasStood = true) (h : dealer_turn_logic st = .ok st2) :
    st2.dealerCards.map Prod.fst = st.dealerCards.map Prod.fst := by
  unfold dealer_turn_logic at h
  split at h
  next =>
    injection h with h2
    subst h2
    rfl
  next =>
    split at h
    next heq => rw [hm] at heq; exact Mode.noConfusion heq
    next heq =>
      rw [hs] at h
      injection h with h2
      subst h2
      simp
    next heq => rw [hm] at heq; exact Mode.noConfusion heq

lemma react_stood_id (st : GameState) (hs : st.dealerHasStood = true) :
    dealer_react_after_player_hit st = .ok st := by
  simp [dealer_react_after_player_hit, hs]

lemma react_ok_fields (st st2 : GameState)
    (h : dealer_react_after_player_hit st = .ok st2) :
    st2.mode = st.mode ∧ st2.threshold = st.threshold ∧
    st2.dealerPlaying = st.dealerPlaying ∧ st2.playerCards = st.playerCards := by
  unfold dealer_react_after_player_hit at h
  split at h
  next =>
    injection h with h2
    subst h2
    exact ⟨rfl, rfl, rfl, rfl⟩
  next =>
    split at h
    next =>
      split at h
      · exact StepResult.noConfusion h
      next c rest heq =>
        injection h with h2
        subst h2
        simp
    next =>
      injection h with h2
      subst h2
      simp

lemma react_stood_mono (st st2 : GameState) (hs : st.dealerHasStood = true)
    (h : dealer_react_after_player_hit st = .ok st2) :
    st2 = st := by
  rw [react_stood_id st hs] at h
  injection h with h2
  exact h2.symm

lemma apply_act_playing_id (st : GameState) (a : Act)
    (h : st.dealerPlaying = true) : apply_act st a = .ok st := by
  cases a <;> simp [apply_act, player_hit_logic, dealer_turn_logic, h]

lemma run_playing_id (acts : List Act) (st : GameState)
    (h : st.dealerPlaying = true) : run_actions st acts = .ok st := by
  induction acts with
  | nil => rfl
  | cons a rest ih => simp [run_actions, apply_act_playing_id st a h, ih]

lemma step_withPlayer_stood (st : GameState) (a : Act) (st2 : GameState)
    (hm : st.mode = .withPlayer) (hs : st.dealerHasStood = true)
    (h : apply_act st a = .ok st2) :
    st2.mode = .withPlayer ∧ st2.dealerHasStood = true ∧
    st2.dealerCards.map Prod.fst = st.dealerCards.map Prod.fst := by
  cases a with
  | stand =>
    obtain ⟨-, hmode, -, hstood, -⟩ := dealer_turn_ok st st2 h
    exact ⟨hmode.trans hm, hstood.trans hs,
      dealer_turn_stood_cards st st2 hm hs h⟩
  | hit =>
    simp only [apply_act] at h
    unfold player_hit_logic at h
    split at h
    next =>
      injection h with h2
      subst h2
      exact ⟨hm, hs, rfl⟩
    next =>
      split at h
      · exact StepResult.noConfusion h
      next c rest heq =>
        split_ifs at h
        · have hb := dealer_turn_ok _ st2 h
          have hmode : st2.mode = st.mode := by simpa using hb.2.1
          have hstood : st2.dealerHasStood = st.dealerHasStood := by
            simpa using hb.2.2.2.1
          have hcards := dealer_turn_stood_cards _ st2
            (by simpa using hm) (by simpa using hs) h
          exact ⟨hmode.trans hm, hstood.trans hs, by simpa using hcards⟩
        · have hb := dealer_turn_ok _ st2 h
          have hmode : st2.mode = st.mode := by simpa using hb.2.1
          have hstood : st2.dealerHasStood = st.dealerHasStood := by
            simpa using hb.2.2.2.1
          have hcards := dealer_turn_stood_cards _ st2
            (by simpa using hm) (by simpa using hs) h
          exact ⟨hmode.trans hm, hstood.trans hs, by simpa using hcards⟩
        · have h2 := react_stood_mono _ st2 (by simpa using hs) h
          subst h2
          exact ⟨hm, hs, rfl⟩

lemma run_withPlayer_stood (acts : List Act) : ∀ (st st2 : GameState),
    st.mode = .withPlayer → st.dealerHasStood = true →
    run_actions st acts = .ok st2 →
    st2.dealerCards.map Prod.fst = st.dealerCards.map Prod.fst := by
  induction acts with
  | nil =>
    intro st st2 _ _ h
    injection h with h2
    subst h2
    rfl
  | cons a rest ih =>
    intro st st2 hm hs h
    simp only [run_actions] at h
    cases happ : apply_act st a with
    | ok st1 =>
      rw [happ] at h
      obtain ⟨hm1, hs1, hc1⟩ := step_withPlayer_stood st a st1 hm hs happ
      exact (ih st1 st2 hm1 hs1 h).trans hc1
    | hang => rw [happ] at h; exact StepResult.noConfusion h
    | err e => rw [happ] at h; exact StepResult.noConfusion h

lemma step_autoEnd (st : GameState) (a : Act) (st2 : GameState)
    (hm : st.mode = .autoEnd) (h : apply_act st a = .ok st2) :
    st2.mode = .autoEnd ∧ (st2.dealerPlaying = false →
      st.dealerPlaying = false ∧ st2.dealerCards = st.dealerCards) := by
  cases a with
  | stand =>
    obtain ⟨hplay, hmode, -, -, -⟩ := dealer_turn_ok st st2 h
    refine ⟨hmode.trans hm, fun hf => ?_⟩
    rw [hplay] at hf
    exact Bool.noConfusion hf
  | hit =>
    simp only [apply_act] at h
    unfold player_hit_logic at h
    split at h
    next =>
      injection h with h2
      subst h2
      exact ⟨hm, fun hf => ⟨hf, rfl⟩⟩
    next hg =>
      split at h
      · exact StepResult.noConfusion h
      next c rest heq =>
        split_ifs at h with h21 hgt hwp
        · obtain ⟨hplay, hmode, -, -, -⟩ := dealer_turn_ok _ st2 h
          refine ⟨by simpa [hm] using hmode, fun hf => ?_⟩
          rw [hplay] at hf
          exact Bool.noConfusion hf
        · obtain ⟨hplay, hmode, -, -, -⟩ := dealer_turn_ok _ st2 h
          refine ⟨by simpa [hm] using hmode, fun hf => ?_⟩
          rw [hplay] at hf
          exact Bool.noConfusion hf
        · rw [hm] at hwp
          exact Mode.noConfusion hwp
        · injection h with h2
          subst h2
          simp only [Bool.not_eq_true] at hg
          exact ⟨hm, fun _ => ⟨hg, rfl⟩⟩

lemma run_autoEnd (acts : List Act) : ∀ (st st2 : GameState),
    st.mode = .autoEnd → run_actions st acts = .ok st2 →
    st2.dealerPlaying = false → st2.dealerCards = st.dealerCards := by
  induction acts with
  | nil =>
    intro st st2 _ h _
    injection h with h2
    subst h2
    rfl
  | cons a rest ih =>
    intro st st2 hm h hf
    simp only [run_actions] at h
    cases happ : apply_act st a with
    | ok st1 =>
      rw [happ] at h
      have hrun : run_actions st1 rest = .ok st2 := h
      obtain ⟨hm1, hstep⟩ := step_autoEnd st a st1 hm happ
      cases hp1 : st1.dealerPlaying with
      | true =>
        rw [run_playing_id rest st1 hp1] at hrun
        injection hrun with h2
        subst h2
        rw [hp1] at hf
        exact Bool.noConfusion hf
      | false =>
        obtain ⟨-, hcards⟩ := hstep hp1
        exact (ih st1 st2 hm1 hrun hf).trans hcards
    | hang => rw [happ] at h; exact StepResult.noConfusion h
    | err e => rw [happ] at h; exact StepResult.noConfusion h

lemma auto_branch_char (st : GameState) (hand : List (Card × Bool))
    (rest : List Card)
    (heq : dealer_auto_play st.threshold false st.deck
      (reveal_dealer_cards st.dealerCards) = some (hand, rest)) :
    st.threshold ≤ calculate_score (hand.map Prod.fst) ∧
    ∃ k, k ≤ st.deck.length ∧
      hand.map Prod.fst = st.dealerCards.map Prod.fst ++ st.deck.take k ∧
      ∀ j, j < k →
        calculate_score (st.dealerCards.map Prod.fst ++ st.deck.take j) <
          st.threshold := by
  obtain ⟨k, hk, hfin, -, hthr, hmin⟩ :=
    dealer_auto_play_sound st.threshold false st.deck
      (reveal_dealer_cards st.dealerCards) hand rest heq
  rw [reveal_map_fst] at hfin
  simp only [reveal_map_fst] at hmin
  exact ⟨hthr, k, hk, hfin, hmin⟩

lemma auto_match_ok (st st2 : GameState) (b : Bool) (m : Mode)
    (h : (match dealer_auto_play st.threshold false st.deck
          (reveal_dealer_cards st.dealerCards) with
        | none => StepResult.hang
        | some (hand, rest) =>
          StepResult.ok (end_game (hide_stand_label
            { playerCards := st.playerCards, dealerCards := hand,
              dealerHasStood := b, dealerPlaying := true,
              standLabelVisible := st.standLabelVisible,
              resultMsg := st.resultMsg, mode := m,
              threshold := st.threshold, deck := rest }))) =
      StepResult.ok st2) :
    st2.resultMsg.isSome = true ∧
    st.threshold ≤ calculate_score (st2.dealerCards.map Prod.fst) ∧
    ∃ k, k ≤ st.deck.length ∧
      st2.dealerCards.map Prod.fst =
        st.dealerCards.map Prod.fst ++ st.deck.take k ∧
      ∀ j, j < k →
        calculate_score (st.dealerCards.map Prod.fst ++ st.deck.take j) <
          st.threshold := by
  cases heq : dealer_auto_play st.threshold false st.deck
      (reveal_dealer_cards st.dealerCards) with
  | none => rw [heq] at h; exact StepResult.noConfusion h
  | some pr =>
    obtain ⟨hand, rest⟩ := pr
    rw [heq] at h
    injection h with h2
    subst h2
    obtain ⟨hthr, k, hk, hfin, hmin⟩ := auto_branch_char st hand rest heq
    exact ⟨by simp, by simpa using hthr, k, hk, by simpa using hfin, hmin⟩

lemma auto_match_complete (st : GameState) (b : Bool) (m : Mode)
    (hsc : st.threshold ≤
      calculate_score (st.dealerCards.map Prod.fst ++ st.deck)) :
    ∃ st2, (match dealer_auto_play st.threshold false st.deck
        (reveal_dealer_cards st.dealerCards) with
      | none => StepResult.hang
      | some (hand, rest) =>
        StepResult.ok (end_game (hide_stand_label
          { playerCards := st.playerCards, dealerCards := hand,
            dealerHasStood := b, dealerPlaying := true,
            standLabelVisible := st.standLabelVisible,
            resultMsg := st.resultMsg, mode := m,
            threshold := st.threshold, deck := rest }))) =
      StepResult.ok st2 := by
  obtain ⟨out, heq⟩ := dealer_auto_play_complete st.threshold false st.deck
    (reveal_dealer_cards st.dealerCards) (by simpa using hsc)
  obtain ⟨hand, rest⟩ := out
  exact ⟨_, by rw [heq]⟩

/-- C3: entering the dealer turn with the `_dealer_playing` guard clear,
the dealer policy is decided by the mode exactly as claimed: under
AUTO_START the state is only revealed and resolved with no further draw;
under WITH_PLAYER with the stood flag set, likewise; in the two remaining
cases (WITH_PLAYER without the flag, and AUTO_END) every normal return has
drawn cards one at a time from the deck, stopping at the first prefix whose
score reaches the threshold (every shorter prefix is below it), and has
resolved the round; and such a return exists whenever the deck suffices to
reach the threshold. -/
theorem claim3_dealer_turn_policy (st : GameState)
    (hp : st.dealerPlaying = false) :
    (st.mode = .autoStart → dealer_turn_logic st = .ok (end_game
      (hide_stand_label
        { st with
          dealerPlaying := true,
          dealerCards := reveal_dealer_cards st.dealerCards }))) ∧
    (st.mode = .withPlayer → st.dealerHasStood = true →
      dealer_turn_logic st = .ok (end_game
        (hide_stand_label
          { st with
            dealerPlaying := true,
            dealerCards := reveal_dealer_cards st.dealerCards }))) ∧
    ((st.mode = .withPlayer ∧ st.dealerHasStood = false) ∨ st.mode = .autoEnd →
      (∀ st2, dealer_turn_logic st = .ok st2 →
        st2.resultMsg.isSome = true ∧
        st.threshold ≤ calculate_score (st2.dealerCards.map Prod.fst) ∧
        ∃ k, k ≤ st.deck.length ∧
          st2.dealerCards.map Prod.fst =
            st.dealerCards.map Prod.fst ++ st.deck.take k ∧
          ∀ j, j < k →
            calculate_score (st.dealerCards.map Prod.fst ++ st.deck.take j) <
              st.threshold) ∧
      (st.threshold ≤ calculate_score (st.dealerCards.map Prod.fst ++ st.deck) →
        ∃ st2, dealer_turn_logic st = .ok st2)) := by
  refine ⟨?_, ?_, ?_⟩
  · intro hm
    simp [dealer_turn_logic, hp, hm]
  · intro hm hs
    simp [dealer_turn_logic, hp, hm, hs]
  · intro hcase
    constructor
    · intro st2 h
      rcases hcase with ⟨hm, hs⟩ | hm
      · simp only [dealer_turn_logic, hp, Bool.false_eq_true, if_false, hm, hs] at h
        exact auto_match_ok st st2 _ _ h
      · simp only [dealer_turn_logic, hp, Bool.false_eq_true, if_false, hm] at h
        exact auto_match_ok st st2 _ _ h
    · intro hsc
      rcases hcase with ⟨hm, hs⟩ | hm
      · simp only [dealer_turn_logic, hp, Bool.false_eq_true, if_false, hm, hs]
        exact auto_match_complete st _ _ hsc
      · simp only [dealer_turn_logic, hp, Bool.false_eq_true, if_false, hm]
        exact auto_match_complete st _ _ hsc

/-- C3 witness: a concrete AUTO_END state below the threshold whose deck
reaches it, so the dealer turn returns normally. -/
theorem claim3_witness :
    auto_end_state.dealerPlaying = false ∧ auto_end_state.mode = .autoEnd ∧
    auto_end_state.threshold ≤ calculate_score
      (auto_end_state.dealerCards.map Prod.fst ++ auto_end_state.deck) ∧
    ∃ st2, dealer_turn_logic auto_end_state = .ok st2 := by
  refine ⟨rfl, rfl, by decide, ?_⟩
  exact ((claim3_dealer_turn_policy auto_end_state rfl).2.2 (Or.inr rfl)).2
    (by decide)

/-- C4: under WITH_PLAYER, the dealer reaction to a player hit is exactly:
an immediate no-op return when the stood flag is already set; one face-down
card drawn when the flag is clear and the score is below the threshold;
otherwise the flag is set and the STAND! indicator shown.  A player hit
that returns normally without entering the dealer turn adds at most one
dealer card, and once the stood flag is set no sequence of actions for the
rest of the round ever changes the dealer hand - in particular an Ace-6
dealer at threshold 17 never draws again. -/
theorem claim4_withPlayer_reaction :
    (∀ st : GameState, st.dealerHasStood = true →
      dealer_react_after_player_hit st = .ok st) ∧
    (∀ (st : GameState) (c : Card) (rest : List Card),
      st.dealerHasStood = false →
      calculate_score (st.dealerCards.map Prod.fst) < st.threshold →
      st.deck = c :: rest →
      dealer_react_after_player_hit st =
        .ok { st with
          dealerCards := st.dealerCards ++ [(c, true)], deck := rest }) ∧
    (∀ st : GameState, st.dealerHasStood = false →
      st.threshold ≤ calculate_score (st.dealerCards.map Prod.fst) →
      dealer_react_after_player_hit st =
        .ok { st with dealerHasStood := true, standLabelVisible := true }) ∧
    (∀ (st st2 : GameState), st.mode = .withPlayer →
      player_hit_logic st = .ok st2 → st2.dealerPlaying = false →
      st2.dealerCards.length ≤ st.dealerCards.length + 1) ∧
    (∀ (st : GameState) (acts : List Act) (st2 : GameState),
      st.mode = .withPlayer → st.dealerHasStood = true →
      run_actions st acts = .ok st2 →
      st2.dealerCards.map Prod.fst = st.dealerCards.map Prod.fst) := by
  refine ⟨react_stood_id, ?_, ?_, ?_, ?_⟩
  · intro st c rest hs hlt hdeck
    simp [dealer_react_after_player_hit, hs, hlt, hdeck]
  · intro st hs hge
    simp [dealer_react_after_player_hit, hs, Nat.not_lt.mpr hge]
  · intro st st2 hm h hpl
    unfold player_hit_logic at h
    split at h
    next =>
      injection h with h2
      subst h2
      exact Nat.le_succ_of_le (le_refl _)
    next =>
      split at h
      · exact StepResult.noConfusion h
      next c rest heq =>
        split_ifs at h with h21 hgt
        · have hplay := (dealer_turn_ok _ st2 h).1
          rw [hplay] at hpl
          exact Bool.noConfusion hpl
        · have hplay := (dealer_turn_ok _ st2 h).1
          rw [hplay] at hpl
          exact Bool.noConfusion hpl
        · unfold dealer_react_after_player_hit at h
          split_ifs at h with hs hlt
          · injection h with h2
            subst h2
            simp
          · split at h
            · exact StepResult.noConfusion h
            next c2 r2 heq2 =>
              injection h with h2
              subst h2
              simp
          · injection h with h2
            subst h2
            simp
  · intro st acts st2 hm hs h
    exact run_withPlayer_stood acts st st2 hm hs h

/-- C4 witness: the Ace-6 dealer at threshold 17 stands on the first
reaction, and two further player hits leave the dealer hand unchanged. -/
theorem claim4_witness :
    ace_six_state.dealerHasStood = false ∧
    ace_six_state.threshold ≤
      calculate_score (ace_six_state.dealerCards.map Prod.fst) ∧
    dealer_react_after_player_hit ace_six_state = .ok ace_six_stood ∧
    run_actions ace_six_stood [.hit, .hit] = .ok ace_six_after_two_hits ∧
    ace_six_after_two_hits.dealerCards.map Prod.fst =
      ace_six_stood.dealerCards.map Prod.fst := by
  refine ⟨rfl, by decide, ?_, by decide, ?_⟩
  · exact claim4_withPlayer_reaction.2.2.1 ace_six_state rfl (by decide)
  · exact claim4_withPlayer_reaction.2.2.2.2 ace_six_stood [.hit, .hit]
      ace_six_after_two_hits rfl rfl (by decide)

/-- C5 counterexample: with the round resolved (the `_dealer_playing` guard
still set after `end_game`), calling the hit or stand handler does not fail
with IllegalActionError - no error is raised at all; the call returns
normally with the state unchanged, i.e. it is silently ignored. -/
theorem claim5_counterexample :
    player_hit_logic resolved_state = .ok resolved_state ∧
    player_hit_logic resolved_state ≠ .err .illegalActionError ∧
    dealer_turn_logic resolved_state = .ok resolved_state ∧
    dealer_turn_logic resolved_state ≠ .err .illegalActionError := by
  decide

/-- C5 (amended): an action requested while it is not legal (the
`_dealer_playing` guard is set, which covers the dealer turn and the whole
resolved phase) returns normally with the round state unchanged and raises
no error: the source has no IllegalActionError and silently ignores the
call. -/
theorem claim5_illegal_action_ignored (st : GameState)
    (h : st.dealerPlaying = true) :
    player_hit_logic st = .ok st ∧ dealer_turn_logic st = .ok st := by
  constructor
  · simp [player_hit_logic, h]
  · simp [dealer_turn_logic, h]

/-- C5 witness: the resolved state has the guard set and both handlers
return it unchanged. -/
theorem claim5_witness :
    resolved_state.dealerPlaying = true ∧
    player_hit_logic resolved_state = .ok resolved_state ∧
    dealer_turn_logic resolved_state = .ok resolved_state :=
  ⟨rfl, (claim5_illegal_action_ignored resolved_state rfl).1,
    (claim5_illegal_action_ignored resolved_state rfl).2⟩

/-- C8: under AUTO_END, starting from the opening deal (two dealer cards,
two player cards), no sequence of hit/stand actions adds a dealer card as
long as the dealer turn has not been entered (`_dealer_playing` still
clear): the dealer hand is still exactly the two dealt cards. -/
theorem claim8_autoEnd_no_reaction (thr : Nat) (d1 d2 p1 p2 : Card)
    (rest : List Card) (st0 st2 : GameState) (acts : List Act)
    (hdeal : deal_initial_cards .autoEnd thr (d1 :: d2 :: p1 :: p2 :: rest) =
      .ok st0)
    (hrun : run_actions st0 acts = .ok st2)
    (hplay : st2.dealerPlaying = false) :
    st2.dealerCards.map Prod.fst = [d1, d2] := by
  simp only [deal_initial_cards] at hdeal
  rw [if_neg (by decide : ¬ (Mode.autoEnd = Mode.autoStart))] at hdeal
  split at hdeal
  next hbj =>
    have hp0 := (dealer_turn_ok _ st0 hdeal).1
    rw [run_playing_id acts st0 hp0] at hrun
    injection hrun with h2
    subst h2
    rw [hp0] at hplay
    exact Bool.noConfusion hplay
  next hbj =>
    injection hdeal with h2
    subst h2
    have hc := run_autoEnd acts _ st2 rfl hrun hplay
    rw [hc]
    rfl

/-- C8 witness: a concrete AUTO_END deal followed by one hit that stays
below 21; the dealer hand is still the two dealt cards. -/
theorem claim8_witness :
    deal_initial_cards .autoEnd 17 [(10, 1), (6, 1), (5, 1), (5, 2), (2, 1)] =
      .ok auto_end_dealt ∧
    run_actions auto_end_dealt [.hit] = .ok auto_end_after_hit ∧
    auto_end_after_hit.dealerPlaying = false ∧
    auto_end_after_hit.dealerCards.map Prod.fst = [(10, 1), (6, 1)] := by
  refine ⟨by decide, by decide, rfl, ?_⟩
  exact claim8_autoEnd_no_reaction 17 (10, 1) (6, 1) (5, 1) (5, 2) [(2, 1)]
    auto_end_dealt auto_end_after_hit [.hit] (by decide) (by decide) rfl

lemma findUnused_sound (stream : Nat → Card) (used : Finset Card) :
    ∀ (fuel start i : Nat), findUnused stream used start fuel = some i →
      start ≤ i ∧ stream i ∉ used := by
  intro fuel
  induction fuel with
  | zero => intro start i h; exact Option.noConfusion h
  | succ f ih =>
    intro start i h
    unfold findUnused at h
    split at h
    next hin =>
      obtain ⟨hle, hout⟩ := ih (start + 1) i h
      exact ⟨by omega, hout⟩
    next hout =>
      injection h with h2
      subst h2
      exact ⟨le_refl _, hout⟩

lemma findUnused_mono (stream : Nat → Card) (used : Finset Card) :
    ∀ (f g start i : Nat), f ≤ g → findUnused stream used start f = some i →
      findUnused stream used start g = some i := by
  intro f
  induction f with
  | zero => intro g start i _ h; exact Option.noConfusion h
  | succ f ih =>
    intro g start i hfg h
    cases g with
    | zero => omega
    | succ g2 =>
      unfold findUnused at h ⊢
      split at h
      next hin =>
        rw [if_pos hin]
        exact ih g2 (start + 1) i (by omega) h
      next hin =>
        rw [if_neg hin]
        exact h

lemma findUnused_complete (stream : Nat → Card) (used : Finset Card) :
    ∀ (k start : Nat), stream (start + k) ∉ used →
      ∃ i, findUnused stream used start (k + 1) = some i := by
  intro k
  induction k with
  | zero =>
    intro start h
    unfold findUnused
    rw [if_neg (by simpa using h)]
    exact ⟨start, rfl⟩
  | succ k2 ih =>
    intro start h
    unfold findUnused
    by_cases hin : stream start ∈ used
    · rw [if_pos hin]
      refine ih (start + 1) ?_
      rw [show start + 1 + k2 = start + (k2 + 1) from by omega]
      exact h
    · rw [if_neg hin]
      exact ⟨start, rfl⟩

lemma draw_card_sound (stream : Nat → Card) (used : Finset Card)
    (start fuel : Nat) (c : Card) (u : Finset Card) (s : Nat)
    (h : draw_card stream used start fuel = some (c, u, s)) :
    c ∉ used ∧ u = insert c used := by
  unfold draw_card at h
  cases heq : findUnused stream used start fuel with
  | none => rw [heq] at h; exact Option.noConfusion h
  | some i =>
    rw [heq] at h
    obtain ⟨-, hout⟩ := findUnused_sound stream used fuel start i heq
    simp only [Option.some.injEq, Prod.mk.injEq] at h
    obtain ⟨rfl, rfl, rfl⟩ := h
    exact ⟨hout, rfl⟩

lemma draw_card_mono (stream : Nat → Card) (used : Finset Card)
    (start f g : Nat) (x : Card × Finset Card × Nat) (hfg : f ≤ g)
    (h : draw_card stream used start f = some x) :
    draw_card stream used start g = some x := by
  unfold draw_card at h ⊢
  cases heq : findUnused stream used start f with
  | none => rw [heq] at h; exact Option.noConfusion h
  | some i =>
    rw [heq] at h
    rw [findUnused_mono stream used f g start i hfg heq]
    exact h

lemma drawN_mono (stream : Nat → Card) :
    ∀ (n : Nat) (used : Finset Card) (start : Nat)
      (x : List Card × Finset Card × Nat) (f g : Nat), f ≤ g →
      drawN stream f n used start = some x →
      drawN stream g n used start = some x := by
  intro n
  induction n with
  | zero => intro used start x f g _ h; exact h
  | succ n ih =>
    intro used start x f g hfg h
    unfold drawN at h ⊢
    cases hd : draw_card stream used start f with
    | none => rw [hd] at h; exact Option.noConfusion h
    | some y =>
      obtain ⟨c, u, s⟩ := y
      rw [hd] at h
      rw [draw_card_mono stream used start f g _ hfg hd]
      have h3 : (match drawN stream f n u s with
          | none => none
          | some (cs, u2, s2) => some (c :: cs, u2, s2)) = some x := h
      show (match drawN stream g n u s with
          | none => none
          | some (cs, u2, s2) => some (c :: cs, u2, s2)) = some x
      cases ht : drawN stream f n u s with
      | none => rw [ht] at h3; exact Option.noConfusion h3
      | some z =>
        rw [ht] at h3
        rw [ih u s z f g hfg ht]
        exact h3

lemma drawN_sound (stream : Nat → Card) :
    ∀ (n fuel : Nat) (used : Finset Card) (start : Nat) (cs : List Card)
      (u : Finset Card) (s : Nat),
      drawN stream fuel n used start = some (cs, u, s) →
      cs.Nodup ∧ (∀ c ∈ cs, c ∉ used) ∧ u = used ∪ cs.toFinset := by
  intro n
  induction n with
  | zero =>
    intro fuel used start cs u s h
    simp only [drawN, Option.some.injEq, Prod.mk.injEq] at h
    obtain ⟨rfl, rfl, rfl⟩ := h
    simp
  | succ n ih =>
    intro fuel used start cs u s h
    unfold drawN at h
    cases hd : draw_card stream used start fuel with
    | none => rw [hd] at h; exact Option.noConfusion h
    | some y =>
      obtain ⟨c0, u0, s0⟩ := y
      rw [hd] at h
      have h3 : (match drawN stream fuel n u0 s0 with
          | none => none
          | some (cs2, u2, s2) => some (c0 :: cs2, u2, s2)) =
        some (cs, u, s) := h
      cases ht : drawN stream fuel n u0 s0 with
      | none => rw [ht] at h3; exact Option.noConfusion h3
      | some z =>
        obtain ⟨cs0, u2, s2⟩ := z
        rw [ht] at h3
        simp only [Option.some.injEq, Prod.mk.injEq] at h3
        obtain ⟨rfl, rfl, rfl⟩ := h3
        obtain ⟨hfresh, hins⟩ := draw_card_sound stream used start fuel c0 u0 s0 hd
        obtain ⟨hnd, hn, hu⟩ := ih fuel u0 s0 cs0 u2 s2 ht
        subst hins
        refine ⟨?_, ?_, ?_⟩
        · refine List.nodup_cons.mpr ⟨?_, hnd⟩
          intro hmem
          exact (hn c0 hmem) (Finset.mem_insert_self c0 used)
        · intro c hc
          rcases List.mem_cons.mp hc with rfl | hc2
          · exact hfresh
          · intro hcu
            exact (hn c hc2) (Finset.mem_insert_of_mem hcu)
        · rw [hu]
          simp [List.toFinset_cons, Finset.insert_union, Finset.union_insert]

lemma drawN_cons (stream : Nat → Card) (fuel n : Nat) (used : Finset Card)
    (start : Nat) (c : Card) (u : Finset Card) (s : Nat)
    (hd : draw_card stream used start fuel = some (c, u, s)) :
    drawN stream fuel (n + 1) used start =
      match drawN stream fuel n u s with
      | none => none
      | some (cs, u2, s2) => some (c :: cs, u2, s2) := by
  show (match draw_card stream used start fuel with
      | none => none
      | some (c2, u2, s2) =>
        match drawN stream fuel n u2 s2 with
        | none => none
        | some (cs, u3, s3) => some (c2 :: cs, u3, s3)) =
    match drawN stream fuel n u s with
    | none => none
    | some (cs, u2, s2) => some (c :: cs, u2, s2)
  rw [hd]

lemma deck52_card : deck52.card = 52 := by decide

lemma exists_fresh (used : Finset Card) (hsub : used ⊆ deck52)
    (hlt : used.card < 52) : ∃ c ∈ deck52, c ∉ used := by
  have hne : used ≠ deck52 := by
    intro he
    rw [he, deck52_card] at hlt
    omega
  exact Finset.exists_of_ssubset (Finset.ssubset_iff_subset_ne.mpr ⟨hsub, hne⟩)

lemma drawN_complete (stream : Nat → Card)
    (hval : ∀ i, stream i ∈ deck52)
    (hfair : ∀ c ∈ deck52, ∀ t, ∃ i, t ≤ i ∧ stream i = c) :
    ∀ (n : Nat) (used : Finset Card) (start : Nat), used ⊆ deck52 →
      used.card + n ≤ 52 →
      ∃ fuel cs u s, drawN stream fuel n used start = some (cs, u, s) := by
  intro n
  induction n with
  | zero => intro used start _ _; exact ⟨0, [], used, start, rfl⟩
  | succ n ih =>
    intro used start hsub hcard
    obtain ⟨c, hc52, hcnot⟩ := exists_fresh used hsub (by omega)
    obtain ⟨i, hge, hieq⟩ := hfair c hc52 start
    have hnot : stream (start + (i - start)) ∉ used := by
      rw [show start + (i - start) = i from by omega, hieq]
      exact hcnot
    obtain ⟨j, hj⟩ := findUnused_complete stream used (i - start) start hnot
    have hd1 : draw_card stream used start (i - start + 1) =
        some (stream j, insert (stream j) used, j + 1) := by
      unfold draw_card
      rw [hj]
    have hjout : stream j ∉ used :=
      (findUnused_sound stream used (i - start + 1) start j hj).2
    have hsub2 : insert (stream j) used ⊆ deck52 := by
      intro x hx
      rcases Finset.mem_insert.mp hx with rfl | hx2
      · exact hval j
      · exact hsub hx2
    have hcard2 : (insert (stream j) used).card + n ≤ 52 := by
      rw [Finset.card_insert_of_not_mem hjout]
      omega
    obtain ⟨f2, cs, u, s, h2⟩ := ih (insert (stream j) used) (j + 1) hsub2 hcard2
    refine ⟨max (i - start + 1) f2, stream j :: cs, u, s, ?_⟩
    rw [drawN_cons stream (max (i - start + 1) f2) n used start (stream j)
      (insert (stream j) used) (j + 1)
      (draw_card_mono stream used start (i - start + 1) _ _ (le_max_left _ _) hd1)]
    rw [drawN_mono stream n (insert (stream j) used) (j + 1) (cs, u, s) f2
      (max (i - start + 1) f2) (le_max_right _ _) h2]

/-- C6: the `draw_card` contract and its consequence for rounds: whenever a
draw returns, the card was not in the used set and the used set afterwards
is exactly the old one with the card inserted; whenever a run of `n` draws
returns, the drawn cards are pairwise distinct and none was in the initial
used set; and for any candidate stream that stays inside the 52-card
universe and produces every card at arbitrarily late positions, a run of up
to 52 - `used.card` draws does return for some fuel. -/
theorem claim6_draw_uniqueness :
    (∀ (stream : Nat → Card) (used : Finset Card) (start fuel : Nat)
      (c : Card) (u : Finset Card) (s : Nat),
      draw_card stream used start fuel = some (c, u, s) →
      c ∉ used ∧ u = insert c used) ∧
    (∀ (stream : Nat → Card) (fuel n : Nat) (used : Finset Card)
      (start : Nat) (cs : List Card) (u : Finset Card) (s : Nat),
      drawN stream fuel n used start = some (cs, u, s) →
      cs.Nodup ∧ (∀ c ∈ cs, c ∉ used) ∧ u = used ∪ cs.toFinset) ∧
    (∀ stream : Nat → Card, (∀ i, stream i ∈ deck52) →
      (∀ c ∈ deck52, ∀ t, ∃ i, t ≤ i ∧ stream i = c) →
      ∀ (n : Nat) (used : Finset Card) (start : Nat), used ⊆ deck52 →
        used.card + n ≤ 52 →
        ∃ fuel cs u s, drawN stream fuel n used start = some (cs, u, s)) := by
  refine ⟨?_, ?_, ?_⟩
  · intro stream used start fuel c u s h
    exact draw_card_sound stream used start fuel c u s h
  · intro stream fuel n used start cs u s h
    exact drawN_sound stream n fuel used start cs u s h
  · intro stream hval hfair n used start hsub hcard
    exact drawN_complete stream hval hfair n used start hsub hcard

lemma mem_deck52 (c : Card) :
    c ∈ deck52 ↔ (1 ≤ c.1 ∧ c.1 ≤ 13) ∧ 1 ≤ c.2 ∧ c.2 ≤ 4 := by
  unfold deck52
  rw [Finset.mem_product, Finset.mem_Icc, Finset.mem_Icc]

lemma conStream_mem (i : Nat) : conStream i ∈ deck52 := by
  have h1 : i % 13 < 13 := Nat.mod_lt _ (by omega)
  have h2 : (i / 13) % 4 < 4 := Nat.mod_lt _ (by omega)
  rw [mem_deck52]
  simp only [conStream]
  refine ⟨⟨?_, ?_⟩, ?_, ?_⟩ <;> omega

lemma conStream_fair : ∀ c ∈ deck52, ∀ t, ∃ i, t ≤ i ∧ conStream i = c := by
  intro c hc t
  obtain ⟨r, s⟩ := c
  rw [mem_deck52] at hc
  refine ⟨(r - 1) + 13 * ((s - 1) + 4 * t), by omega, ?_⟩
  simp only [conStream, Prod.mk.injEq]
  have hmod : ((r - 1) + 13 * ((s - 1) + 4 * t)) % 13 = r - 1 := by
    rw [Nat.add_mul_mod_self_left]
    exact Nat.mod_eq_of_lt (by omega)
  have hdiv : ((r - 1) + 13 * ((s - 1) + 4 * t)) / 13 = (s - 1) + 4 * t := by
    rw [Nat.add_mul_div_left _ _ (by omega : 0 < 13)]
    rw [Nat.div_eq_of_lt (by omega)]
    omega
  have hmod2 : ((s - 1) + 4 * t) % 4 = s - 1 := by
    rw [Nat.add_mul_mod_self_left]
    exact Nat.mod_eq_of_lt (by omega)
  rw [hmod, hdiv, hmod2]
  constructor <;> omega

/-- C6 witness: from an empty used set, two draws from the cycling stream
return the distinct fresh cards (1,1) and (2,1) and insert them, and a full
run of 52 draws returns for some fuel. -/
theorem claim6_witness :
    ((1, 1) : Card) ∉ (∅ : Finset Card) ∧
    draw_card conStream ∅ 0 1 = some ((1, 1), insert (1, 1) ∅, 1) ∧
    drawN conStream 1 2 ∅ 0 =
      some ([(1, 1), (2, 1)], insert (2, 1) (insert (1, 1) ∅), 2) ∧
    [((1 : Nat), (1 : Nat)), (2, 1)].Nodup ∧
    (∀ c ∈ [((1 : Nat), (1 : Nat)), (2, 1)], c ∉ (∅ : Finset Card)) ∧
    (∃ fuel cs u s, drawN conStream fuel 52 ∅ 0 = some (cs, u, s)) := by
  refine ⟨by decide, ?_, rfl, ?_, ?_, ?_⟩
  · exact (claim6_draw_uniqueness.1 conStream ∅ 0 1 (1, 1)
      (insert (1, 1) ∅) 1 rfl).2.symm ▸ rfl
  · exact (claim6_draw_uniqueness.2.1 conStream 1 2 ∅ 0 [(1, 1), (2, 1)]
      (insert (2, 1) (insert (1, 1) ∅)) 2 rfl).1
  · exact (claim6_draw_uniqueness.2.1 conStream 1 2 ∅ 0 [(1, 1), (2, 1)]
      (insert (2, 1) (insert (1, 1) ∅)) 2 rfl).2.1
  · exact claim6_draw_uniqueness.2.2 conStream conStream_mem conStream_fair
      52 ∅ 0 (Finset.empty_subset _) (by decide)

lemma findUnused_all_used (stream : Nat → Card) (used : Finset Card)
    (hall : ∀ i, stream i ∈ used) :
    ∀ (fuel start : Nat), findUnused stream used start fuel = none := by
  intro fuel
  induction fuel with
  | zero => intro start; rfl
  | succ f ih =>
    intro start
    unfold findUnused
    rw [if_pos (hall start)]
    exact ih (start + 1)

/-- C7 counterexample: with all 52 cards used, `draw_card` does not fail
with an ExhaustedDeckError - it does not return at all: for every starting
position and every amount of fuel the rejection loop is still running (the
source raises nothing and has no exhaustion check; `while True` spins
forever). -/
theorem claim7_counterexample : draw_card_loops conStream deck52 := by
  intro start fuel
  unfold draw_card
  rw [findUnused_all_used conStream deck52 conStream_mem fuel start]

/-- C7 (amended): whenever the used set already contains all 52 (rank, suit)
pairs, `draw_card` never returns for any candidate stream drawn from the
52-card universe: the `while True` rejection loop runs forever and no
ExhaustedDeckError (which does not exist in the source) is ever reported. -/
theorem claim7_exhausted_deck_loops (stream : Nat → Card)
    (used : Finset Card) (hsub : deck52 ⊆ used)
    (hval : ∀ i, stream i ∈ deck52) :
    draw_card_loops stream used := by
  intro start fuel
  unfold draw_card
  rw [findUnused_all_used stream used (fun i => hsub (hval i)) fuel start]

/-- C7 witness: the cycling stream against the fully used deck. -/
theorem claim7_witness :
    deck52 ⊆ deck52 ∧ (∀ i, conStream i ∈ deck52) ∧
    draw_card_loops conStream deck52 :=
  ⟨Finset.Subset.refl deck52, conStream_mem,
    claim7_exhausted_deck_loops conStream deck52 (Finset.Subset.refl deck52)
      conStream_mem⟩
